import Mathlib

/-!
Shallow embedding of src/src/geometries/EquirectTile.js (marzipano,
equirectangular tiled geometry) and proofs about the claims of the
natural-language specification.  Pure arithmetic on the tile grid is
modelled over Nat / Int / Rat; the trigonometric projection is modelled
over the reals.
-/

set_option autoImplicit false

namespace EquirectSpec

/-- One resolution tier of the image pyramid, as stored by the
EquirectTileLevel constructor in src/src/geometries/EquirectTile.js:
pixel dimensions of the level and pixel dimensions of its tiles. -/
structure EquirectTileLevel where
  width : Nat
  height : Nat
  tileWidth : Nat
  tileHeight : Nat
deriving DecidableEq, Repr

/-- Modelled from the spec: the generic Level base class (Level.js) is not
under src/; section 3 of the spec derives the tile-grid width as
tileColumns = ceil(pixelWidth / tilePixelWidth), a ceiling division. -/
def EquirectTileLevel.numHorizontalTiles (l : EquirectTileLevel) : Nat :=
  (l.width + l.tileWidth - 1) / l.tileWidth

/-- Modelled from the spec: tileRows = ceil(pixelHeight / tilePixelHeight). -/
def EquirectTileLevel.numVerticalTiles (l : EquirectTileLevel) : Nat :=
  (l.height + l.tileHeight - 1) / l.tileHeight

/-- Translation of EquirectTileLevel.prototype._validateWithParentLevel.
For the first divisibility check that fails, the source builds an Error
object and RETURNS it (it does not throw); when every check passes it
returns undefined.  The returned value is modelled as an Option String. -/
def EquirectTileLevel.validateWithParentLevel
    (l parentLevel : EquirectTileLevel) : Option String :=
  if l.width % parentLevel.width ≠ 0 then
    some "Level width must be multiple of parent level"
  else if l.height % parentLevel.height ≠ 0 then
    some "Level height must be multiple of parent level"
  else if l.tileWidth % parentLevel.tileWidth ≠ 0 then
    some "Level tile width must be multiple of parent level"
  else if l.tileHeight % parentLevel.tileHeight ≠ 0 then
    some "Level tile height must be multiple of parent level"
  else none

/-- The geometry owns the ordered list of levels, index 0 = coarsest. -/
structure EquirectTileGeometry where
  levelList : List EquirectTileLevel
deriving DecidableEq, Repr

/-- Per-level properties record accepted by the constructor. -/
structure LevelProperties where
  width : Nat
  height : Nat
  tileWidth : Nat
  tileHeight : Nat
deriving DecidableEq, Repr

/-- Modelled from the spec: common.makeLevelList (geometries/common.js) is
not under src/; per sections 3 and 6 the construction input is an ordered
sequence of per-level records, one level being built from each record in
order. -/
def makeLevelList (lst : List LevelProperties) : List EquirectTileLevel :=
  lst.map fun p => ⟨p.width, p.height, p.tileWidth, p.tileHeight⟩

/-- Validation results computed by the constructor loop, which runs
levelList[i]._validateWithParentLevel(levelList[i-1]) for i = 1 .. n-1 as a
bare statement expression. -/
def validationResults (levelList : List EquirectTileLevel) :
    List (Option String) :=
  ((List.range levelList.length).drop 1).map fun i =>
    (levelList.getD i ⟨0, 0, 0, 0⟩).validateWithParentLevel
      (levelList.getD (i - 1) ⟨0, 0, 0, 0⟩)

/-- Modelled from the spec: common.makeSelectableLevelList
(geometries/common.js) is not under src/; per section 4.1 construction
fails with a ConfigurationError when the input is not a non-empty ordered
sequence, and this call is where an empty level list fails.  Its
selectable-level output is used by no claim, so only the failure on an
empty list is modelled. -/
def makeSelectableLevelList (levelList : List EquirectTileLevel) :
    Except String (List EquirectTileLevel) :=
  if levelList = [] then Except.error "No selectable levels in list"
  else Except.ok levelList

/-- Translation of the EquirectTileGeometry constructor.  A typed level
list always passes the array check at the top; makeSelectableLevelList is
called next and fails on an empty list; then the loop computes the
pairwise validation results but discards the returned Error objects, so on
any non-empty list input the constructor returns the geometry and never
fails. -/
def EquirectTileGeometry.construct (lst : List LevelProperties) :
    Except String EquirectTileGeometry :=
  let levelList := makeLevelList lst
  match makeSelectableLevelList levelList with
  | Except.error e => Except.error e
  | Except.ok _selectable =>
    let _discarded := validationResults levelList
    Except.ok ⟨levelList⟩

/-- Lookup of geometry.levelList[z]; out-of-range indices never arise under
the hypotheses used below. -/
def EquirectTileGeometry.levelAt (g : EquirectTileGeometry) (z : Nat) :
    EquirectTileLevel :=
  g.levelList.getD z ⟨0, 0, 0, 0⟩

/-- JavaScript numeric values as they reach Math.max inside maxTileSize:
either an actual number or NaN. -/
inductive JsNum where
  | num (q : ℚ)
  | nan
deriving DecidableEq, Repr

/-- Math.max on two arguments: NaN propagates, otherwise the larger
number. -/
def mathMax : JsNum → JsNum → JsNum
  | .num a, .num b => .num (max a b)
  | _, _ => .nan

/-- Numeric coercion of a method accessed without calling it: in the source
the expressions level.tileWidth and level.tileHeight denote the accessor
functions themselves (no parentheses), and coercing a function object to a
number yields NaN. -/
def methodAsNumber : JsNum := JsNum.nan

/-- Translation of EquirectTileGeometry.prototype.maxTileSize.  The loop
folds Math.max(maxTileSize, level.tileWidth, level.tileHeight) over the
levels starting from 0, where both level.tileWidth and level.tileHeight are
uncalled method references (see methodAsNumber). -/
def EquirectTileGeometry.maxTileSize (g : EquirectTileGeometry) : JsNum :=
  g.levelList.foldl
    (fun acc _level => mathMax (mathMax acc methodAsNumber) methodAsNumber)
    (JsNum.num 0)

/-- Tile address as constructed by EquirectTile(x, y, z, geometry).  The x
and y coordinates are JavaScript numbers; they are modelled as rationals
because children() can produce fractional coordinates when the tile-count
ratio between adjacent levels is not an integer.  The geometry back
reference is passed explicitly to each operation. -/
structure EquirectTile where
  x : ℚ
  y : ℚ
  z : Nat
deriving DecidableEq, Repr

/-- Translation of EquirectTile.prototype.parent: at level 0 there is no
parent; otherwise the coordinates are divided by the tile-count ratio
between the level and its parent level and floored. -/
def EquirectTile.parent (t : EquirectTile) (g : EquirectTileGeometry) :
    Option EquirectTile :=
  if t.z = 0 then none
  else
    let level := g.levelAt t.z
    let parentLevel := g.levelAt (t.z - 1)
    let z := t.z - 1
    let x : ℚ :=
      ⌊t.x / ((level.numHorizontalTiles : ℚ) / (parentLevel.numHorizontalTiles : ℚ))⌋
    let y : ℚ :=
      ⌊t.y / ((level.numVerticalTiles : ℚ) / (parentLevel.numVerticalTiles : ℚ))⌋
    some ⟨x, y, z⟩

/-- Translation of EquirectTile.prototype.children: at the finest level
there are no children; otherwise the loops run the integer counter dx while
dx < xscale (so ceil(xscale) iterations when xscale is positive) and push
the tile (xscale * x + dx, yscale * y + dy, z + 1), outer loop on dx. -/
def EquirectTile.children (t : EquirectTile) (g : EquirectTileGeometry) :
    Option (List EquirectTile) :=
  if t.z = g.levelList.length - 1 then none
  else
    let level := g.levelAt t.z
    let childLevel := g.levelAt (t.z + 1)
    let z := t.z + 1
    let xscale : ℚ :=
      (childLevel.numHorizontalTiles : ℚ) / (level.numHorizontalTiles : ℚ)
    let yscale : ℚ :=
      (childLevel.numVerticalTiles : ℚ) / (level.numVerticalTiles : ℚ)
    some ((List.range ⌈xscale⌉₊).flatMap fun (dx : Nat) =>
      (List.range ⌈yscale⌉₊).map fun (dy : Nat) =>
        ⟨xscale * t.x + (dx : ℚ), yscale * t.y + (dy : ℚ), z⟩)

/-- Fixed direction table of neighbors(): top, right, bottom, left. -/
def neighborOffsets : List (ℤ × ℤ) := [(0, 1), (1, 0), (0, -1), (-1, 0)]

/-- Horizontal wrap of neighbors(): the two sequential conditional
assignments of the source, if (newX < 0) newX = numX and then
if (newX > numX) newX = 0. -/
def wrapX (numX nx : ℚ) : ℚ :=
  let nx1 := if nx < 0 then numX else nx
  if nx1 > numX then 0 else nx1

/-- Loop body of EquirectTile.prototype.neighbors for one direction: the
new column is wrapped onto [0, numX] by wrapX, and the candidate is kept
only when the new row lies inside [0, numY], where numX and numY are the
tile counts minus one. -/
def EquirectTile.neighborCandidate (t : EquirectTile)
    (g : EquirectTileGeometry) (offset : ℤ × ℤ) : Option EquirectTile :=
  let level := g.levelAt t.z
  let numX : ℚ := (level.numHorizontalTiles : ℚ) - 1
  let numY : ℚ := (level.numVerticalTiles : ℚ) - 1
  let newX : ℚ := wrapX numX (t.x + (offset.1 : ℚ))
  let newY : ℚ := t.y + (offset.2 : ℚ)
  if 0 ≤ newY ∧ newY ≤ numY then some ⟨newX, newY, t.z⟩ else none

/-- Translation of EquirectTile.prototype.neighbors, without the memoizing
cache (the cache only replays a previously computed result, so the value
returned is the one computed here). -/
def EquirectTile.neighbors (t : EquirectTile) (g : EquirectTileGeometry) :
    List EquirectTile :=
  neighborOffsets.filterMap (t.neighborCandidate g)

/-- Translation of EquirectTile.prototype.width: the last column may be a
partial tile, of size levelWidth mod tileWidth, with the full tile size
kept when the remainder is zero (the source's falsy-or). -/
def EquirectTile.width (t : EquirectTile) (g : EquirectTileGeometry) : Nat :=
  let level := g.levelAt t.z
  if t.x = (level.numHorizontalTiles : ℚ) - 1 then
    let widthRemainder := level.width % level.tileWidth
    if widthRemainder = 0 then level.tileWidth else widthRemainder
  else level.tileWidth

/-- Translation of EquirectTile.prototype.height, the vertical analogue of
width. -/
def EquirectTile.height (t : EquirectTile) (g : EquirectTileGeometry) : Nat :=
  let level := g.levelAt t.z
  if t.y = (level.numVerticalTiles : ℚ) - 1 then
    let heightRemainder := level.height % level.tileHeight
    if heightRemainder = 0 then level.tileHeight else heightRemainder
  else level.tileHeight

/-- Translation of EquirectTile.prototype.minX: fraction of the level width
to the left of the tile. -/
def EquirectTile.minX (t : EquirectTile) (g : EquirectTileGeometry) : ℚ :=
  let level := g.levelAt t.z
  t.x * (level.tileWidth : ℚ) / (level.width : ℚ)

/-- Translation of EquirectTile.prototype.minY. -/
def EquirectTile.minY (t : EquirectTile) (g : EquirectTileGeometry) : ℚ :=
  let level := g.levelAt t.z
  t.y * (level.tileHeight : ℚ) / (level.height : ℚ)

/-- Translation of EquirectTile.prototype.scaleX: footprint fraction of the
level width covered by the tile. -/
def EquirectTile.scaleX (t : EquirectTile) (g : EquirectTileGeometry) : ℚ :=
  let level := g.levelAt t.z
  (t.width g : ℚ) / (level.width : ℚ)

/-- Translation of EquirectTile.prototype.scaleY. -/
def EquirectTile.scaleY (t : EquirectTile) (g : EquirectTileGeometry) : ℚ :=
  let level := g.levelAt t.z
  (t.height g : ℚ) / (level.height : ℚ)

/-- Inner helper makeVertex of EquirectTile.prototype.vertices: converts a
yaw/pitch pair to a Cartesian vector
(sin(yaw)*cos(pitch), -sin(pitch), cos(yaw)*cos(pitch)). -/
noncomputable def makeVertex (yaw pitch : ℝ) : ℝ × ℝ × ℝ :=
  (Real.sin yaw * Real.cos pitch, -Real.sin pitch,
    Real.cos yaw * Real.cos pitch)

/-- Translation of EquirectTile.prototype.vertices: the four corner angles
are left = -minX * 2 * pi, right = left - scaleX * 2 * pi,
bottom = -(minY - 0.5) * pi, top = bottom - scaleY * pi, and the result
array is [(left, top), (right, top), (right, bottom), (left, bottom)]
passed through makeVertex. -/
noncomputable def EquirectTile.vertices (t : EquirectTile)
    (g : EquirectTileGeometry) : List (ℝ × ℝ × ℝ) :=
  let left : ℝ := -((t.minX g : ℝ)) * Real.pi * 2
  let right : ℝ := left - (t.scaleX g : ℝ) * Real.pi * 2
  let bottom : ℝ := -((t.minY g : ℝ) - 0.5) * Real.pi
  let top : ℝ := bottom - (t.scaleY g : ℝ) * Real.pi
  [makeVertex left top, makeVertex right top,
    makeVertex right bottom, makeVertex left bottom]

/-- Translation of util/mod.js applied to integers: ((m % n) + n) % n with
the truncating JavaScript remainder. -/
def jsMod (m n : ℤ) : ℤ := (m.tmod n + n).tmod n

/-- Translation of util/clamp.js applied to integers:
Math.min(Math.max(x, lo), hi). -/
def clamp (x lo hi : ℤ) : ℤ := min (max x lo) hi

/-- Translation of EquirectTileGeometry.prototype._closestTile.  The view
direction is (yaw, pitch) in radians; the requested level is passed by its
index z (the source recovers that index with levelList.indexOf).  Image
coordinates x = yaw / (2 pi) + 0.5 and y = -pitch / pi + 0.5 are scaled to
the tile grid, with the column wrapped by util mod and the row clamped. -/
noncomputable def EquirectTileGeometry.closestTile (g : EquirectTileGeometry)
    (z : Nat) (yaw pitch : ℝ) : EquirectTile :=
  let level := g.levelAt z
  let x : ℝ := yaw / (2 * Real.pi) + 0.5
  let y : ℝ := -pitch / Real.pi + 0.5
  let tileX : ℤ :=
    jsMod ⌊x * (level.width : ℝ) / (level.tileWidth : ℝ)⌋
      (level.numHorizontalTiles : ℤ)
  let tileY : ℤ :=
    clamp ⌊y * (level.height : ℝ) / (level.tileHeight : ℝ)⌋ 0
      ((level.numVerticalTiles : ℤ) - 1)
  ⟨(tileX : ℚ), (tileY : ℚ), z⟩

/-- Viewport dimensions reported by view.size(). -/
structure ViewSize where
  width : Nat
  height : Nat
deriving DecidableEq, Repr

/-- The external view object, of which the core only reads yaw(), pitch()
and size(). -/
structure View where
  yaw : ℝ
  pitch : ℝ
  size : ViewSize

/-- Translation of EquirectTileGeometry.prototype.visibleTiles.  The
external tile search is a black box passed as a parameter; it receives the
view, the starting tile and the result list, and returns the number of
tiles found together with the filled list.  When the viewport has zero
width or height the source returns the result list unchanged before any
tile is computed; when the search reports zero tiles the source throws. -/
noncomputable def EquirectTileGeometry.visibleTiles (g : EquirectTileGeometry)
    (search : View → EquirectTile → List EquirectTile →
      Nat × List EquirectTile)
    (view : View) (z : Nat) (result : List EquirectTile) :
    Except String (List EquirectTile) :=
  if view.size.width = 0 ∨ view.size.height = 0 then
    Except.ok result
  else
    let startingTile := g.closestTile z view.yaw view.pitch
    let found := search view startingTile result
    if found.1 = 0 then Except.error "Starting tile is not visible"
    else Except.ok found.2

/-- Example pyramid used by the repository's own test suite: three levels
of 512-pixel tiles with doubling level sizes. -/
def exampleGeometry : EquirectTileGeometry :=
  ⟨[⟨512, 512, 512, 512⟩, ⟨1024, 1024, 512, 512⟩, ⟨2048, 2048, 512, 512⟩]⟩

/-- C1: the claim says that constructing an EquirectTileGeometry from a
level list violating the divisibility invariant fails with a configuration
error.  In the code, _validateWithParentLevel only RETURNS the Error object
and the constructor discards it, so construction succeeds on every
non-empty list: here, on a list whose second level width 1000 is not a
multiple of 512, construction returns the geometry even though the
validation of that pair reports the width violation. -/
theorem c1_invalid_levels_construction_succeeds :
    EquirectTileGeometry.construct
        [⟨512, 512, 512, 512⟩, ⟨1000, 1024, 512, 512⟩] =
      Except.ok ⟨[⟨512, 512, 512, 512⟩, ⟨1000, 1024, 512, 512⟩]⟩ ∧
    EquirectTileLevel.validateWithParentLevel
        ⟨1000, 1024, 512, 512⟩ ⟨512, 512, 512, 512⟩ =
      some "Level width must be multiple of parent level" ∧
    (∀ lst : List LevelProperties, lst ≠ [] →
      EquirectTileGeometry.construct lst = Except.ok ⟨makeLevelList lst⟩) := by
  refine ⟨rfl, by decide, ?_⟩
  intro lst hne
  have h1 : makeLevelList lst ≠ [] := by
    simp only [makeLevelList, ne_eq, List.map_eq_nil_iff]
    exact hne
  simp [EquirectTileGeometry.construct, makeSelectableLevelList, h1]

/-- C1, witness: a non-empty one-level list constructs successfully. -/
theorem c1_invalid_levels_construction_succeeds_witness :
    ([⟨512, 512, 512, 512⟩] : List LevelProperties) ≠ [] ∧
    EquirectTileGeometry.construct [⟨512, 512, 512, 512⟩] =
      Except.ok ⟨makeLevelList [⟨512, 512, 512, 512⟩]⟩ :=
  ⟨by decide,
    c1_invalid_levels_construction_succeeds.2.2 [⟨512, 512, 512, 512⟩]
      (by decide)⟩

/-- C3: the claim says maxTileSize() returns the maximum of the tile pixel
dimensions over all levels (512 for the single level below).  The source
passes level.tileWidth and level.tileHeight to Math.max without calling
them, so Math.max sees two function objects, coerces them to NaN, and the
method returns NaN on every non-empty level list. -/
theorem c3_maxTileSize_is_nan :
    EquirectTileGeometry.maxTileSize ⟨[⟨512, 512, 512, 512⟩]⟩ = JsNum.nan ∧
    EquirectTileGeometry.maxTileSize exampleGeometry = JsNum.nan := by
  exact ⟨rfl, rfl⟩

/-- C2 counterexample: the claim says that for a view whose viewport has
zero width or height, visibleTiles raises an empty-viewport error rather
than returning normally.  On a concrete view of width 0 the source returns
normally with the (empty) result list. -/
theorem c2_zero_viewport_returns_normally :
    EquirectTileGeometry.visibleTiles exampleGeometry
        (fun _ _ result => (1, result)) ⟨0, 0, ⟨0, 5⟩⟩ 0 [] =
      Except.ok [] := by
  simp [EquirectTileGeometry.visibleTiles]

/-- C2 amended: when the viewport has zero width or height, visibleTiles
returns normally with the result list unchanged (no tile is produced and no
error is raised), for every geometry, search function, view and level. -/
theorem c2_zero_viewport_no_tiles (g : EquirectTileGeometry)
    (search : View → EquirectTile → List EquirectTile →
      Nat × List EquirectTile)
    (view : View) (z : Nat) (result : List EquirectTile)
    (h : view.size.width = 0 ∨ view.size.height = 0) :
    g.visibleTiles search view z result = Except.ok result := by
  simp [EquirectTileGeometry.visibleTiles, h]

/-- C2 amended, witness: the zero-width view above satisfies the hypothesis
and visibleTiles returns the empty result list on it. -/
theorem c2_zero_viewport_no_tiles_witness :
    ((⟨0, 0, ⟨0, 5⟩⟩ : View).size.width = 0 ∨
      (⟨0, 0, ⟨0, 5⟩⟩ : View).size.height = 0) ∧
    EquirectTileGeometry.visibleTiles exampleGeometry
        (fun _ _ result => (1, result)) ⟨0, 0, ⟨0, 5⟩⟩ 0 [] =
      Except.ok [] :=
  ⟨Or.inl rfl,
    c2_zero_viewport_no_tiles exampleGeometry
      (fun _ _ result => (1, result)) ⟨0, 0, ⟨0, 5⟩⟩ 0 [] (Or.inl rfl)⟩

lemma ceilDiv_of_dvd {a b : Nat} (hb : 0 < b) (h : b ∣ a) :
    (a + b - 1) / b = a / b := by
  obtain ⟨q, rfl⟩ := h
  rw [show b * q + b - 1 = b * q + (b - 1) from by omega,
    Nat.mul_add_div hb, Nat.div_eq_of_lt (by omega),
    Nat.mul_div_cancel_left q hb]
  omega

lemma cols_mul {w0 tw0 w1 tw1 : Nat} (hw0 : 0 < w0) (htw0 : 0 < tw0)
    (htw1 : 0 < tw1) (hw01 : w0 ∣ w1) (ht01 : tw0 ∣ tw1) (he0 : tw0 ∣ w0)
    (hfac : tw1 / tw0 ∣ w1 / w0) :
    ∃ k : Nat, w1 / tw1 = k * (w0 / tw0) := by
  obtain ⟨d, hd⟩ := he0
  obtain ⟨b, hb⟩ := ht01
  obtain ⟨a, ha⟩ := hw01
  have hb0 : 0 < b := by
    rcases Nat.eq_zero_or_pos b with h0 | h0
    · subst h0; omega
    · exact h0
  have hd0 : 0 < d := by
    rcases Nat.eq_zero_or_pos d with h0 | h0
    · subst h0; omega
    · exact h0
  have hfb : tw1 / tw0 = b := by
    rw [hb, Nat.mul_div_cancel_left b htw0]
  have hfa : w1 / w0 = a := by
    rw [ha, Nat.mul_div_cancel_left a hw0]
  rw [hfb, hfa] at hfac
  obtain ⟨c, hc⟩ := hfac
  refine ⟨c, ?_⟩
  have h1 : w1 = (tw0 * b) * (d * c) := by
    rw [ha, hd, hc]; ring
  have h2 : w1 / tw1 = d * c := by
    rw [h1, hb, Nat.mul_div_cancel_left (d * c) (by positivity)]
  have h3 : w0 / tw0 = d := by
    rw [hd, Nat.mul_div_cancel_left d htw0]
  rw [h2, h3, Nat.mul_comm]

lemma validateWithParentLevel_eq_none {l p : EquirectTileLevel} :
    l.validateWithParentLevel p = none ↔
      p.width ∣ l.width ∧ p.height ∣ l.height ∧
      p.tileWidth ∣ l.tileWidth ∧ p.tileHeight ∣ l.tileHeight := by
  simp only [EquirectTileLevel.validateWithParentLevel]
  split_ifs with h1 h2 h3 h4 <;>
    simp_all [Nat.dvd_iff_mod_eq_zero]

/-- C4 counterexample: the claim says the divisibility invariant guarantees
that the tile-count ratio between adjacent levels is an integer.  The level
pair below passes every divisibility check of _validateWithParentLevel
(3072 is a multiple of 1536 and 2048 of 512), yet the coarse level has 3
tile columns and the fine level ceil(3072 / 2048) = 2, so the ratio used by
parent() is 2/3, not an integer. -/
theorem c4_ratio_not_integral :
    EquirectTileLevel.validateWithParentLevel
        ⟨3072, 3072, 2048, 2048⟩ ⟨1536, 1536, 512, 512⟩ = none ∧
    EquirectTileLevel.numHorizontalTiles ⟨1536, 1536, 512, 512⟩ = 3 ∧
    EquirectTileLevel.numHorizontalTiles ⟨3072, 3072, 2048, 2048⟩ = 2 ∧
    ¬ ∃ k : ℤ,
      ((EquirectTileLevel.numHorizontalTiles ⟨3072, 3072, 2048, 2048⟩ : ℚ) /
        (EquirectTileLevel.numHorizontalTiles ⟨1536, 1536, 512, 512⟩ : ℚ)) =
        (k : ℚ) := by
  refine ⟨by decide, by decide, by decide, ?_⟩
  rintro ⟨k, hk⟩
  have h2 : (EquirectTileLevel.numHorizontalTiles ⟨3072, 3072, 2048, 2048⟩ : ℚ)
      = 2 := by norm_num [EquirectTileLevel.numHorizontalTiles]
  have h3 : (EquirectTileLevel.numHorizontalTiles ⟨1536, 1536, 512, 512⟩ : ℚ)
      = 3 := by norm_num [EquirectTileLevel.numHorizontalTiles]
  rw [h2, h3] at hk
  have hz : (2 : ℚ) = k * 3 := by
    field_simp at hk
    linarith
  have hzz : (2 : ℤ) = k * 3 := by exact_mod_cast hz
  omega

/-- C4 amended: the divisibility invariant alone does not make the
tile-count ratios integral; it does as soon as, in addition, each of the
two adjacent levels is exactly tiled (tile width divides level width, tile
height divides level height) and the level-size growth factor is a multiple
of the tile-size growth factor in each axis.  Under those hypotheses the
ratios tileColumns(level) / tileColumns(parent) and
tileRows(level) / tileRows(parent) used by parent() are integers. -/
theorem c4_ratio_integral (p l : EquirectTileLevel)
    (hp : 0 < p.width ∧ 0 < p.height ∧ 0 < p.tileWidth ∧ 0 < p.tileHeight)
    (hl : 0 < l.width ∧ 0 < l.height ∧ 0 < l.tileWidth ∧ 0 < l.tileHeight)
    (hdiv : l.validateWithParentLevel p = none)
    (hep : p.tileWidth ∣ p.width ∧ p.tileHeight ∣ p.height)
    (hel : l.tileWidth ∣ l.width ∧ l.tileHeight ∣ l.height)
    (hfw : l.tileWidth / p.tileWidth ∣ l.width / p.width)
    (hfh : l.tileHeight / p.tileHeight ∣ l.height / p.height) :
    (∃ kx : Nat, l.numHorizontalTiles = kx * p.numHorizontalTiles ∧
      ((l.numHorizontalTiles : ℚ) / (p.numHorizontalTiles : ℚ)) = kx) ∧
    (∃ ky : Nat, l.numVerticalTiles = ky * p.numVerticalTiles ∧
      ((l.numVerticalTiles : ℚ) / (p.numVerticalTiles : ℚ)) = ky) := by
  obtain ⟨hpw, hph, hptw, hpth⟩ := hp
  obtain ⟨hlw, hlh, hltw, hlth⟩ := hl
  rw [validateWithParentLevel_eq_none] at hdiv
  obtain ⟨hdw, hdh, hdtw, hdth⟩ := hdiv
  have hcolsP : p.numHorizontalTiles = p.width / p.tileWidth :=
    ceilDiv_of_dvd hptw hep.1
  have hcolsL : l.numHorizontalTiles = l.width / l.tileWidth :=
    ceilDiv_of_dvd hltw hel.1
  have hrowsP : p.numVerticalTiles = p.height / p.tileHeight :=
    ceilDiv_of_dvd hpth hep.2
  have hrowsL : l.numVerticalTiles = l.height / l.tileHeight :=
    ceilDiv_of_dvd hlth hel.2
  have hcolsPpos : 0 < p.numHorizontalTiles := by
    rw [hcolsP]; exact Nat.div_pos (Nat.le_of_dvd hpw hep.1) hptw
  have hrowsPpos : 0 < p.numVerticalTiles := by
    rw [hrowsP]; exact Nat.div_pos (Nat.le_of_dvd hph hep.2) hpth
  constructor
  · obtain ⟨kx, hkx⟩ := cols_mul hpw hptw hltw hdw hdtw hep.1 hfw
    refine ⟨kx, ?_, ?_⟩
    · rw [hcolsP, hcolsL]; exact hkx
    · have hne : p.width / p.tileWidth ≠ 0 := by
        rw [← hcolsP]; exact hcolsPpos.ne'
      rw [hcolsP, hcolsL, hkx]
      rw [Nat.cast_mul]
      rw [mul_div_assoc, div_self (by exact_mod_cast hne), mul_one]
  · obtain ⟨ky, hky⟩ := cols_mul hph hpth hlth hdh hdth hep.2 hfh
    refine ⟨ky, ?_, ?_⟩
    · rw [hrowsP, hrowsL]; exact hky
    · have hne : p.height / p.tileHeight ≠ 0 := by
        rw [← hrowsP]; exact hrowsPpos.ne'
      rw [hrowsP, hrowsL, hky]
      rw [Nat.cast_mul]
      rw [mul_div_assoc, div_self (by exact_mod_cast hne), mul_one]

/-- C4 amended, witness: the doubling pair of levels from the repository's
test suite satisfies every hypothesis and its tile-count ratios are
integral. -/
theorem c4_ratio_integral_witness :
    EquirectTileLevel.validateWithParentLevel
        ⟨1024, 1024, 512, 512⟩ ⟨512, 512, 512, 512⟩ = none ∧
    ((∃ kx : Nat,
        EquirectTileLevel.numHorizontalTiles ⟨1024, 1024, 512, 512⟩ =
          kx * EquirectTileLevel.numHorizontalTiles ⟨512, 512, 512, 512⟩ ∧
        ((EquirectTileLevel.numHorizontalTiles ⟨1024, 1024, 512, 512⟩ : ℚ) /
          (EquirectTileLevel.numHorizontalTiles ⟨512, 512, 512, 512⟩ : ℚ)) =
          kx) ∧
      (∃ ky : Nat,
        EquirectTileLevel.numVerticalTiles ⟨1024, 1024, 512, 512⟩ =
          ky * EquirectTileLevel.numVerticalTiles ⟨512, 512, 512, 512⟩ ∧
        ((EquirectTileLevel.numVerticalTiles ⟨1024, 1024, 512, 512⟩ : ℚ) /
          (EquirectTileLevel.numVerticalTiles ⟨512, 512, 512, 512⟩ : ℚ)) =
          ky)) :=
  ⟨by decide,
    c4_ratio_integral ⟨512, 512, 512, 512⟩ ⟨1024, 1024, 512, 512⟩
      (by decide) (by decide) (by decide) (by decide) (by decide)
      (by decide) (by decide)⟩

/-- Check that every level of a list passes the divisibility validation
against its immediate predecessor. -/
def adjacentValid : List EquirectTileLevel → Bool
  | p :: l :: rest =>
    (l.validateWithParentLevel p == none) && adjacentValid (l :: rest)
  | _ => true

/-- Validity of a level list per section 3 of the spec: non-empty, all
dimensions positive, and every level passes the divisibility validation
against its immediate predecessor. -/
def ValidPyramid (g : EquirectTileGeometry) : Prop :=
  g.levelList ≠ [] ∧
  (∀ l ∈ g.levelList,
    0 < l.width ∧ 0 < l.height ∧ 0 < l.tileWidth ∧ 0 < l.tileHeight) ∧
  adjacentValid g.levelList = true

instance (g : EquirectTileGeometry) : Decidable (ValidPyramid g) :=
  inferInstanceAs (Decidable (g.levelList ≠ [] ∧
    (∀ l ∈ g.levelList,
      0 < l.width ∧ 0 < l.height ∧ 0 < l.tileWidth ∧ 0 < l.tileHeight) ∧
    adjacentValid g.levelList = true))

lemma ValidPyramid.pos_at {g : EquirectTileGeometry} (h : ValidPyramid g)
    {z : Nat} (hz : z < g.levelList.length) :
    0 < (g.levelAt z).width ∧ 0 < (g.levelAt z).height ∧
    0 < (g.levelAt z).tileWidth ∧ 0 < (g.levelAt z).tileHeight := by
  have hm : g.levelAt z ∈ g.levelList := by
    rw [EquirectTileGeometry.levelAt, List.getD_eq_getElem?_getD,
      List.getElem?_eq_getElem hz]
    exact List.getElem_mem hz
  exact h.2.1 _ hm

lemma numHorizontalTiles_pos {l : EquirectTileLevel} (hw : 0 < l.width)
    (htw : 0 < l.tileWidth) : 0 < l.numHorizontalTiles := by
  have h : 1 ≤ (l.width + l.tileWidth - 1) / l.tileWidth :=
    (Nat.one_le_div_iff htw).mpr (by omega)
  unfold EquirectTileLevel.numHorizontalTiles
  omega

lemma numVerticalTiles_pos {l : EquirectTileLevel} (hh : 0 < l.height)
    (hth : 0 < l.tileHeight) : 0 < l.numVerticalTiles := by
  have h : 1 ≤ (l.height + l.tileHeight - 1) / l.tileHeight :=
    (Nat.one_le_div_iff hth).mpr (by omega)
  unfold EquirectTileLevel.numVerticalTiles
  omega

lemma floor_scale_add {s : ℚ} (m d : Nat) (hs : 0 < s) (hd : (d : ℚ) < s) :
    ⌊(s * (m : ℚ) + (d : ℚ)) / s⌋ = (m : ℤ) := by
  have hs0 : s ≠ 0 := hs.ne'
  have hx : (s * (m : ℚ) + (d : ℚ)) / s = (m : ℚ) + (d : ℚ) / s := by
    field_simp
    ring
  rw [hx]
  rw [Int.floor_eq_iff]
  constructor
  · push_cast
    have : 0 ≤ (d : ℚ) / s := by positivity
    linarith
  · push_cast
    have : (d : ℚ) / s < 1 := (div_lt_one hs).mpr hd
    linarith

/-- C5: parent and children round-trip.  For a validly constructed pyramid
and any integer-addressed tile not at the finest level, every child
returned by children() has the original tile as its parent(). -/
theorem c5_parent_children_roundtrip (g : EquirectTileGeometry)
    (mx my z : Nat) (hv : ValidPyramid g)
    (hz : z + 1 < g.levelList.length) :
    ∀ cs, EquirectTile.children ⟨(mx : ℚ), (my : ℚ), z⟩ g = some cs →
      ∀ c ∈ cs, c.parent g = some ⟨(mx : ℚ), (my : ℚ), z⟩ := by
  intro cs hcs c hc
  have hposZ := hv.pos_at (z := z) (by omega)
  have hposZ1 := hv.pos_at (z := z + 1) hz
  have hcols : 0 < (g.levelAt z).numHorizontalTiles :=
    numHorizontalTiles_pos hposZ.1 hposZ.2.2.1
  have hrows : 0 < (g.levelAt z).numVerticalTiles :=
    numVerticalTiles_pos hposZ.2.1 hposZ.2.2.2
  have hcols1 : 0 < (g.levelAt (z + 1)).numHorizontalTiles :=
    numHorizontalTiles_pos hposZ1.1 hposZ1.2.2.1
  have hrows1 : 0 < (g.levelAt (z + 1)).numVerticalTiles :=
    numVerticalTiles_pos hposZ1.2.1 hposZ1.2.2.2
  have hzne : z ≠ g.levelList.length - 1 := by omega
  simp only [EquirectTile.children] at hcs
  rw [if_neg hzne] at hcs
  have hxs0 : (0 : ℚ) < ((g.levelAt (z + 1)).numHorizontalTiles : ℚ) /
      ((g.levelAt z).numHorizontalTiles : ℚ) := by
    apply div_pos <;> exact_mod_cast (by assumption)
  have hys0 : (0 : ℚ) < ((g.levelAt (z + 1)).numVerticalTiles : ℚ) /
      ((g.levelAt z).numVerticalTiles : ℚ) := by
    apply div_pos <;> exact_mod_cast (by assumption)
  obtain rfl := (Option.some.inj hcs).symm
  obtain ⟨dx, hdx, hc2⟩ := List.mem_flatMap.mp hc
  obtain ⟨dy, hdy, rfl⟩ := List.mem_map.mp hc2
  rw [List.mem_range] at hdx hdy
  have hdxs : ((dx : ℚ)) < ((g.levelAt (z + 1)).numHorizontalTiles : ℚ) /
      ((g.levelAt z).numHorizontalTiles : ℚ) := Nat.lt_ceil.mp hdx
  have hdys : ((dy : ℚ)) < ((g.levelAt (z + 1)).numVerticalTiles : ℚ) /
      ((g.levelAt z).numVerticalTiles : ℚ) := Nat.lt_ceil.mp hdy
  simp only [EquirectTile.parent, Nat.succ_ne_zero, if_false,
    Nat.add_sub_cancel]
  rw [floor_scale_add mx dx hxs0 hdxs, floor_scale_add my dy hys0 hdys]
  norm_num

/-- C5, witness: in the test pyramid, every child of the coarsest tile has
that tile as its parent. -/
theorem c5_parent_children_roundtrip_witness :
    ValidPyramid exampleGeometry ∧
    (∀ cs, EquirectTile.children ⟨0, 0, 0⟩ exampleGeometry = some cs →
      ∀ c ∈ cs, c.parent exampleGeometry = some ⟨0, 0, 0⟩) :=
  ⟨by decide,
    fun cs hcs c hc =>
      c5_parent_children_roundtrip exampleGeometry 0 0 0 (by decide)
        (by decide) cs (by exact_mod_cast hcs) c hc⟩

lemma neighborCandidate_mk (g : EquirectTileGeometry) (x y : ℚ) (z : Nat)
    (ox oy : ℤ) :
    EquirectTile.neighborCandidate ⟨x, y, z⟩ g (ox, oy) =
      if 0 ≤ y + (oy : ℚ) ∧
          y + (oy : ℚ) ≤ ((g.levelAt z).numVerticalTiles : ℚ) - 1 then
        some ⟨wrapX (((g.levelAt z).numHorizontalTiles : ℚ) - 1)
          (x + (ox : ℚ)), y + (oy : ℚ), z⟩
      else none := rfl

lemma wrapX_of_le {numX nx : ℚ} (h0 : 0 ≤ nx) (h1 : nx ≤ numX) :
    wrapX numX nx = nx := by
  unfold wrapX
  rw [if_neg (show ¬ nx < 0 by linarith)]
  rw [if_neg (show ¬ nx > numX by linarith)]

lemma wrapX_right_edge {numX : ℚ} (h : 0 ≤ numX) :
    wrapX numX (numX + 1) = 0 := by
  unfold wrapX
  rw [if_neg (show ¬ numX + 1 < 0 by linarith)]
  rw [if_pos (show numX + 1 > numX by linarith)]

lemma wrapX_left_edge {numX : ℚ} :
    wrapX numX (0 - 1) = numX := by
  unfold wrapX
  rw [if_pos (show (0 : ℚ) - 1 < 0 by norm_num)]
  rw [if_neg (show ¬ numX > numX by exact lt_irrefl numX)]

lemma candidate_horizontal (g : EquirectTileGeometry) (x y : ℚ) (z : Nat)
    (ox : ℤ) (hy0 : 0 ≤ y)
    (hy1 : y ≤ ((g.levelAt z).numVerticalTiles : ℚ) - 1) :
    EquirectTile.neighborCandidate ⟨x, y, z⟩ g (ox, 0) =
      some ⟨wrapX (((g.levelAt z).numHorizontalTiles : ℚ) - 1)
        (x + (ox : ℚ)), y, z⟩ := by
  rw [neighborCandidate_mk]
  rw [if_pos (by push_cast; exact ⟨by linarith, by linarith⟩)]
  norm_num

/-- C6: horizontal wrap-around of the neighbor loop.  At a level with N
tile columns, the right-offset candidate of a tile in column N-1 is column
0 at the same row and level, and the left-offset candidate of a tile in
column 0 is column N-1; both candidates appear in the neighbors() list. -/
theorem c6_horizontal_wrap (g : EquirectTileGeometry) (y : ℚ) (z N : Nat)
    (hN : (g.levelAt z).numHorizontalTiles = N) (hN1 : 1 ≤ N)
    (hy0 : 0 ≤ y) (hy1 : y ≤ ((g.levelAt z).numVerticalTiles : ℚ) - 1) :
    (EquirectTile.neighborCandidate ⟨(N : ℚ) - 1, y, z⟩ g (1, 0) =
        some ⟨0, y, z⟩ ∧
      (⟨0, y, z⟩ : EquirectTile) ∈
        EquirectTile.neighbors ⟨(N : ℚ) - 1, y, z⟩ g) ∧
    (EquirectTile.neighborCandidate ⟨0, y, z⟩ g (-1, 0) =
        some ⟨(N : ℚ) - 1, y, z⟩ ∧
      (⟨(N : ℚ) - 1, y, z⟩ : EquirectTile) ∈
        EquirectTile.neighbors ⟨0, y, z⟩ g) := by
  have hNQ : (1 : ℚ) ≤ (N : ℚ) := by exact_mod_cast hN1
  have hright : EquirectTile.neighborCandidate ⟨(N : ℚ) - 1, y, z⟩ g
      (1, 0) = some ⟨0, y, z⟩ := by
    rw [candidate_horizontal g _ y z 1 hy0 hy1, hN]
    push_cast
    rw [show (N : ℚ) - 1 + 1 = ((N : ℚ) - 1) + 1 from by ring,
      wrapX_right_edge (by linarith)]
  have hleft : EquirectTile.neighborCandidate ⟨0, y, z⟩ g
      (-1, 0) = some ⟨(N : ℚ) - 1, y, z⟩ := by
    rw [candidate_horizontal g _ y z (-1) hy0 hy1, hN]
    push_cast
    rw [show (0 : ℚ) + -1 = 0 - 1 from by ring, wrapX_left_edge]
  refine ⟨⟨hright, ?_⟩, ⟨hleft, ?_⟩⟩
  · exact List.mem_filterMap.mpr ⟨(1, 0), by norm_num [neighborOffsets],
      hright⟩
  · exact List.mem_filterMap.mpr ⟨(-1, 0), by norm_num [neighborOffsets],
      hleft⟩

/-- C6, witness: the middle level of the test pyramid has 2 tile columns;
the right neighbor of column 1 wraps to column 0 and the left neighbor of
column 0 wraps to column 1. -/
theorem c6_horizontal_wrap_witness :
    (exampleGeometry.levelAt 1).numHorizontalTiles = 2 ∧
    ((EquirectTile.neighborCandidate ⟨((2 : Nat) : ℚ) - 1, 0, 1⟩
          exampleGeometry (1, 0) = some ⟨0, 0, 1⟩ ∧
        (⟨0, 0, 1⟩ : EquirectTile) ∈
          EquirectTile.neighbors ⟨((2 : Nat) : ℚ) - 1, 0, 1⟩
            exampleGeometry) ∧
      (EquirectTile.neighborCandidate ⟨0, 0, 1⟩ exampleGeometry (-1, 0) =
          some ⟨((2 : Nat) : ℚ) - 1, 0, 1⟩ ∧
        (⟨((2 : Nat) : ℚ) - 1, 0, 1⟩ : EquirectTile) ∈
          EquirectTile.neighbors ⟨0, 0, 1⟩ exampleGeometry)) :=
  ⟨rfl,
    c6_horizontal_wrap exampleGeometry 0 1 2 rfl (by norm_num) (le_refl 0)
      (by norm_num [exampleGeometry, EquirectTileGeometry.levelAt,
        EquirectTileLevel.numVerticalTiles])⟩

lemma mem_neighbors_props {t n : EquirectTile} {g : EquirectTileGeometry}
    (hn : n ∈ t.neighbors g) :
    n.z = t.z ∧ 0 ≤ n.y ∧
      n.y ≤ ((g.levelAt t.z).numVerticalTiles : ℚ) - 1 := by
  obtain ⟨o, ho, hfo⟩ := List.mem_filterMap.mp hn
  simp only [EquirectTile.neighborCandidate] at hfo
  split_ifs at hfo with hg
  obtain rfl := (Option.some.inj hfo).symm
  exact ⟨rfl, hg.1, hg.2⟩

/-- C7: vertical clamp-by-exclusion of the neighbor loop.  A candidate
whose row leaves [0, tileRows-1] is omitted: at row 0 the bottom (row-1)
candidate is dropped and at the last row the top (row+1) candidate is
dropped; the resulting list has between 2 and 4 entries, all at the input
tile's level and all with rows inside [0, tileRows-1]. -/
theorem c7_vertical_clamp (g : EquirectTileGeometry) (x y : ℚ) (z : Nat)
    (hy0 : 0 ≤ y) (hy1 : y ≤ ((g.levelAt z).numVerticalTiles : ℚ) - 1) :
    (y = 0 → EquirectTile.neighborCandidate ⟨x, y, z⟩ g (0, -1) = none) ∧
    (y = ((g.levelAt z).numVerticalTiles : ℚ) - 1 →
      EquirectTile.neighborCandidate ⟨x, y, z⟩ g (0, 1) = none) ∧
    2 ≤ (EquirectTile.neighbors ⟨x, y, z⟩ g).length ∧
    (EquirectTile.neighbors ⟨x, y, z⟩ g).length ≤ 4 ∧
    ∀ n ∈ EquirectTile.neighbors ⟨x, y, z⟩ g,
      n.z = z ∧ 0 ≤ n.y ∧
        n.y ≤ ((g.levelAt z).numVerticalTiles : ℚ) - 1 := by
  have hbot : y = 0 →
      EquirectTile.neighborCandidate ⟨x, y, z⟩ g (0, -1) = none := by
    intro hy
    rw [neighborCandidate_mk,
      if_neg (by push_cast; rintro ⟨hc1, hc2⟩; rw [hy] at hc1; linarith)]
  have htopn : y = ((g.levelAt z).numVerticalTiles : ℚ) - 1 →
      EquirectTile.neighborCandidate ⟨x, y, z⟩ g (0, 1) = none := by
    intro hy
    rw [neighborCandidate_mk,
      if_neg (by push_cast; rintro ⟨hc1, hc2⟩; rw [hy] at hc2; linarith)]
  have hR := candidate_horizontal g x y z 1 hy0 hy1
  have hL := candidate_horizontal g x y z (-1) hy0 hy1
  have hlen : 2 ≤ (EquirectTile.neighbors ⟨x, y, z⟩ g).length ∧
      (EquirectTile.neighbors ⟨x, y, z⟩ g).length ≤ 4 := by
    by_cases ht : y + 1 ≤ ((g.levelAt z).numVerticalTiles : ℚ) - 1
    · have hT : EquirectTile.neighborCandidate ⟨x, y, z⟩ g (0, 1) =
          some ⟨wrapX (((g.levelAt z).numHorizontalTiles : ℚ) - 1)
            (x + ((0 : ℤ) : ℚ)), y + ((1 : ℤ) : ℚ), z⟩ := by
        rw [neighborCandidate_mk,
          if_pos (by push_cast; exact ⟨by linarith, by linarith⟩)]
      by_cases hb : (0 : ℚ) ≤ y - 1
      · have hB : EquirectTile.neighborCandidate ⟨x, y, z⟩ g (0, -1) =
            some ⟨wrapX (((g.levelAt z).numHorizontalTiles : ℚ) - 1)
              (x + ((0 : ℤ) : ℚ)), y + ((-1 : ℤ) : ℚ), z⟩ := by
          rw [neighborCandidate_mk,
            if_pos (by push_cast; exact ⟨by linarith, by linarith⟩)]
        simp [EquirectTile.neighbors, neighborOffsets, hT, hR, hB, hL]
      · have hB : EquirectTile.neighborCandidate ⟨x, y, z⟩ g (0, -1) =
            none := by
          rw [neighborCandidate_mk,
            if_neg (by push_cast; rintro ⟨hc1, hc2⟩; exact hb (by linarith))]
        simp [EquirectTile.neighbors, neighborOffsets, hT, hR, hB, hL]
    · have hT : EquirectTile.neighborCandidate ⟨x, y, z⟩ g (0, 1) =
          none := by
        rw [neighborCandidate_mk,
          if_neg (by push_cast; rintro ⟨hc1, hc2⟩; exact ht (by linarith))]
      by_cases hb : (0 : ℚ) ≤ y - 1
      · have hB : EquirectTile.neighborCandidate ⟨x, y, z⟩ g (0, -1) =
            some ⟨wrapX (((g.levelAt z).numHorizontalTiles : ℚ) - 1)
              (x + ((0 : ℤ) : ℚ)), y + ((-1 : ℤ) : ℚ), z⟩ := by
          rw [neighborCandidate_mk,
            if_pos (by push_cast; exact ⟨by linarith, by linarith⟩)]
        simp [EquirectTile.neighbors, neighborOffsets, hT, hR, hB, hL]
      · have hB : EquirectTile.neighborCandidate ⟨x, y, z⟩ g (0, -1) =
            none := by
          rw [neighborCandidate_mk,
            if_neg (by push_cast; rintro ⟨hc1, hc2⟩; exact hb (by linarith))]
        simp [EquirectTile.neighbors, neighborOffsets, hT, hR, hB, hL]
  exact ⟨hbot, htopn, hlen.1, hlen.2,
    fun n hn => mem_neighbors_props hn⟩

/-- C7, witness: the middle level of the test pyramid, tile (0,0,1). -/
theorem c7_vertical_clamp_witness :
    ((0 : ℚ) ≤ 0 ∧ (0 : ℚ) ≤
      ((exampleGeometry.levelAt 1).numVerticalTiles : ℚ) - 1) ∧
    (2 ≤ (EquirectTile.neighbors ⟨0, 0, 1⟩ exampleGeometry).length ∧
      (EquirectTile.neighbors ⟨0, 0, 1⟩ exampleGeometry).length ≤ 4 ∧
      ∀ n ∈ EquirectTile.neighbors ⟨0, 0, 1⟩ exampleGeometry,
        n.z = 1 ∧ 0 ≤ n.y ∧
          n.y ≤ ((exampleGeometry.levelAt 1).numVerticalTiles : ℚ) - 1) :=
  ⟨⟨le_refl 0, by norm_num [exampleGeometry, EquirectTileGeometry.levelAt,
      EquirectTileLevel.numVerticalTiles]⟩,
    ⟨(c7_vertical_clamp exampleGeometry 0 0 1 (le_refl 0)
        (by norm_num [exampleGeometry, EquirectTileGeometry.levelAt,
          EquirectTileLevel.numVerticalTiles])).2.2.1,
      (c7_vertical_clamp exampleGeometry 0 0 1 (le_refl 0)
        (by norm_num [exampleGeometry, EquirectTileGeometry.levelAt,
          EquirectTileLevel.numVerticalTiles])).2.2.2.1,
      (c7_vertical_clamp exampleGeometry 0 0 1 (le_refl 0)
        (by norm_num [exampleGeometry, EquirectTileGeometry.levelAt,
          EquirectTileLevel.numVerticalTiles])).2.2.2.2⟩⟩

/-- C10: at a level with a single tile column, the horizontal wrap maps
both the right candidate (column 1) and the left candidate (column -1)
back to column 0, so neighbors() lists the tile itself as its own left and
right neighbor and the tile occurs exactly twice in the list. -/
theorem c10_single_column_self_neighbors (g : EquirectTileGeometry)
    (y : ℚ) (z : Nat) (h1 : (g.levelAt z).numHorizontalTiles = 1)
    (hy0 : 0 ≤ y) (hy1 : y ≤ ((g.levelAt z).numVerticalTiles : ℚ) - 1) :
    EquirectTile.neighborCandidate ⟨0, y, z⟩ g (1, 0) = some ⟨0, y, z⟩ ∧
    EquirectTile.neighborCandidate ⟨0, y, z⟩ g (-1, 0) = some ⟨0, y, z⟩ ∧
    (EquirectTile.neighbors ⟨0, y, z⟩ g).count ⟨0, y, z⟩ = 2 := by
  have hR : EquirectTile.neighborCandidate ⟨0, y, z⟩ g (1, 0) =
      some ⟨0, y, z⟩ := by
    rw [candidate_horizontal g 0 y z 1 hy0 hy1, h1]
    push_cast
    norm_num
    rw [show (1 : ℚ) = 0 + 1 from by norm_num,
      wrapX_right_edge (le_refl (0 : ℚ))]
  have hL : EquirectTile.neighborCandidate ⟨0, y, z⟩ g (-1, 0) =
      some ⟨0, y, z⟩ := by
    rw [candidate_horizontal g 0 y z (-1) hy0 hy1, h1]
    push_cast
    norm_num
    rw [show (-1 : ℚ) = 0 - 1 from by norm_num, wrapX_left_edge]
  refine ⟨hR, hL, ?_⟩
  have hneT : ∀ q : ℚ, q ≠ y →
      (⟨0, q, z⟩ : EquirectTile) ≠ ⟨0, y, z⟩ := by
    intro q hq
    simp only [ne_eq, EquirectTile.mk.injEq]
    rintro ⟨-, h2, -⟩
    exact hq h2
  by_cases ht : y + 1 ≤ ((g.levelAt z).numVerticalTiles : ℚ) - 1
  · have hT : EquirectTile.neighborCandidate ⟨0, y, z⟩ g (0, 1) =
        some ⟨wrapX (((g.levelAt z).numHorizontalTiles : ℚ) - 1)
          ((0 : ℚ) + ((0 : ℤ) : ℚ)), y + ((1 : ℤ) : ℚ), z⟩ := by
      rw [neighborCandidate_mk,
        if_pos (by push_cast; exact ⟨by linarith, by linarith⟩)]
    by_cases hb : (0 : ℚ) ≤ y - 1
    · have hB : EquirectTile.neighborCandidate ⟨0, y, z⟩ g (0, -1) =
          some ⟨wrapX (((g.levelAt z).numHorizontalTiles : ℚ) - 1)
            ((0 : ℚ) + ((0 : ℤ) : ℚ)), y + ((-1 : ℤ) : ℚ), z⟩ := by
        rw [neighborCandidate_mk,
          if_pos (by push_cast; exact ⟨by linarith, by linarith⟩)]
      simp [EquirectTile.neighbors, neighborOffsets, hT, hR, hB, hL,
        List.count_cons, hneT (y + ((1 : ℤ) : ℚ)) (by push_cast; linarith),
        hneT (y + ((-1 : ℤ) : ℚ)) (by push_cast; linarith)]
    · have hB : EquirectTile.neighborCandidate ⟨0, y, z⟩ g (0, -1) =
          none := by
        rw [neighborCandidate_mk,
          if_neg (by push_cast; rintro ⟨hc1, hc2⟩; exact hb (by linarith))]
      simp [EquirectTile.neighbors, neighborOffsets, hT, hR, hB, hL,
        List.count_cons,
        hneT (y + ((1 : ℤ) : ℚ)) (by push_cast; linarith)]
  · have hT : EquirectTile.neighborCandidate ⟨0, y, z⟩ g (0, 1) =
        none := by
      rw [neighborCandidate_mk,
        if_neg (by push_cast; rintro ⟨hc1, hc2⟩; exact ht (by linarith))]
    by_cases hb : (0 : ℚ) ≤ y - 1
    · have hB : EquirectTile.neighborCandidate ⟨0, y, z⟩ g (0, -1) =
          some ⟨wrapX (((g.levelAt z).numHorizontalTiles : ℚ) - 1)
            ((0 : ℚ) + ((0 : ℤ) : ℚ)), y + ((-1 : ℤ) : ℚ), z⟩ := by
        rw [neighborCandidate_mk,
          if_pos (by push_cast; exact ⟨by linarith, by linarith⟩)]
      simp [EquirectTile.neighbors, neighborOffsets, hT, hR, hB, hL,
        List.count_cons,
        hneT (y + ((-1 : ℤ) : ℚ)) (by push_cast; linarith)]
    · have hB : EquirectTile.neighborCandidate ⟨0, y, z⟩ g (0, -1) =
          none := by
        rw [neighborCandidate_mk,
          if_neg (by push_cast; rintro ⟨hc1, hc2⟩; exact hb (by linarith))]
      simp [EquirectTile.neighbors, neighborOffsets, hT, hR, hB, hL,
        List.count_cons]

/-- C10, witness: the single-tile coarsest level of the test pyramid. -/
theorem c10_single_column_self_neighbors_witness :
    (exampleGeometry.levelAt 0).numHorizontalTiles = 1 ∧
    (EquirectTile.neighborCandidate ⟨0, 0, 0⟩ exampleGeometry (1, 0) =
        some ⟨0, 0, 0⟩ ∧
      EquirectTile.neighborCandidate ⟨0, 0, 0⟩ exampleGeometry (-1, 0) =
        some ⟨0, 0, 0⟩ ∧
      (EquirectTile.neighbors ⟨0, 0, 0⟩ exampleGeometry).count ⟨0, 0, 0⟩ =
        2) :=
  ⟨rfl,
    c10_single_column_self_neighbors exampleGeometry 0 0 rfl (le_refl 0)
      (by norm_num [exampleGeometry, EquirectTileGeometry.levelAt,
        EquirectTileLevel.numVerticalTiles])⟩

lemma neg_tmod (a b : ℤ) : (-a).tmod b = -(a.tmod b) := by
  rw [Int.tmod_def, Int.tmod_def, Int.neg_tdiv]
  ring

lemma jsMod_eq_emod (m : ℤ) (n : Nat) : jsMod m (n : ℤ) = m % (n : ℤ) := by
  rcases Nat.eq_zero_or_pos n with h0 | hpos
  · subst h0
    simp [jsMod]
  · have hn : (0 : ℤ) < (n : ℤ) := by exact_mod_cast hpos
    have hub : m.tmod (n : ℤ) < (n : ℤ) := Int.tmod_lt_of_pos m hn
    have hlb : -((n : ℤ)) < m.tmod (n : ℤ) := by
      rcases le_or_lt 0 m with hm | hm
      · have h1 := Int.tmod_nonneg (n : ℤ) hm
        linarith
      · have h1 : (0 : ℤ) ≤ (-m).tmod (n : ℤ) :=
          Int.tmod_nonneg (n : ℤ) (by linarith)
        have h2 := neg_tmod (-m) (n : ℤ)
        rw [neg_neg] at h2
        have h3 : (-m).tmod (n : ℤ) < (n : ℤ) := Int.tmod_lt_of_pos _ hn
        linarith [h2.le, h2.ge]
    have ha1 : (0 : ℤ) ≤ m.tmod (n : ℤ) + (n : ℤ) := by linarith
    rw [show jsMod m (n : ℤ) = (m.tmod (n : ℤ) + (n : ℤ)).tmod (n : ℤ)
        from rfl,
      Int.tmod_eq_emod ha1 hn.le, Int.tmod_def,
      show m - (n : ℤ) * m.tdiv (n : ℤ) + (n : ℤ) =
          m + (n : ℤ) * (1 - m.tdiv (n : ℤ)) from by ring,
      Int.add_mul_emod_self_left]

/-- C8: the closest-tile computation matches the spec formula.  For every
view direction and level index, the returned tile has
column = floor((yaw/(2 pi) + 0.5) * levelWidth / tileWidth) reduced by the
mathematical modulo into the column range, row the clamp of
floor((-pitch/pi + 0.5) * levelHeight / tileHeight) into [0, tileRows-1],
and the requested level. -/
theorem c8_closest_tile_formula (g : EquirectTileGeometry) (z : Nat)
    (yaw pitch : ℝ) :
    (g.closestTile z yaw pitch).x =
      ((⌊(yaw / (2 * Real.pi) + 0.5) * ((g.levelAt z).width : ℝ) /
          ((g.levelAt z).tileWidth : ℝ)⌋ %
        ((g.levelAt z).numHorizontalTiles : ℤ) : ℤ) : ℚ) ∧
    (g.closestTile z yaw pitch).y =
      ((min (max ⌊(-pitch / Real.pi + 0.5) * ((g.levelAt z).height : ℝ) /
            ((g.levelAt z).tileHeight : ℝ)⌋ 0)
        (((g.levelAt z).numVerticalTiles : ℤ) - 1) : ℤ) : ℚ) ∧
    (g.closestTile z yaw pitch).z = z := by
  refine ⟨?_, rfl, rfl⟩
  show ((jsMod ⌊(yaw / (2 * Real.pi) + 0.5) * ((g.levelAt z).width : ℝ) /
      ((g.levelAt z).tileWidth : ℝ)⌋
      ((g.levelAt z).numHorizontalTiles : ℤ) : ℤ) : ℚ) = _
  rw [jsMod_eq_emod]

/-- C9: vertices() projects the four footprint corner angles
yaw = -minX * 2 pi and -(minX + scaleX) * 2 pi, pitch = -(minY - 0.5) * pi
and -(minY + scaleY - 0.5) * pi through (yaw, pitch) to
(sin(yaw)*cos(pitch), -sin(pitch), cos(yaw)*cos(pitch)), and the corner
with yaw = 0, pitch = 0 maps to (0, 0, 1). -/
theorem c9_vertices_projection (t : EquirectTile)
    (g : EquirectTileGeometry) :
    t.vertices g =
      [makeVertex (-(t.minX g : ℝ) * (2 * Real.pi))
          (-(((t.minY g : ℝ) + (t.scaleY g : ℝ)) - 0.5) * Real.pi),
        makeVertex (-((t.minX g : ℝ) + (t.scaleX g : ℝ)) * (2 * Real.pi))
          (-(((t.minY g : ℝ) + (t.scaleY g : ℝ)) - 0.5) * Real.pi),
        makeVertex (-((t.minX g : ℝ) + (t.scaleX g : ℝ)) * (2 * Real.pi))
          (-((t.minY g : ℝ) - 0.5) * Real.pi),
        makeVertex (-(t.minX g : ℝ) * (2 * Real.pi))
          (-((t.minY g : ℝ) - 0.5) * Real.pi)] ∧
    makeVertex 0 0 = (0, 0, 1) := by
  constructor
  · simp only [EquirectTile.vertices]
    refine congrArg₂ List.cons (congrArg₂ makeVertex (by ring) (by ring))
      (congrArg₂ List.cons (congrArg₂ makeVertex (by ring) (by ring))
        (congrArg₂ List.cons (congrArg₂ makeVertex (by ring) (by ring))
          (congrArg₂ List.cons (congrArg₂ makeVertex (by ring) (by ring))
            rfl)))
  · simp [makeVertex]

end EquirectSpec
